import Mathlib

/-!
Verification of the streaming dataflow core: chunk and barrier data
model, the dispatcher family, the stateful aggregation and
materialization operators, and the protobuf round trips.  Definitions
are shallow embeddings of the Rust sources; components whose code is
referenced but not included (aggregation state internals, the
materialized-view memtable, the array codec) are modelled from the
specification and marked as such in their doc comments.
-/

namespace Streaming

/-- Row operation tags carried by a stream chunk
(risingwave_common::array::Op). -/
inductive Op where
  | Insert
  | Delete
  | UpdateDelete
  | UpdateInsert
deriving DecidableEq, Repr

/-- The per-row data the hash dispatcher works with, already reduced:
the virtual node of each row (CRC32 of the key columns modulo the
virtual node count, computed by chunk.get_hash_values before the main
loop of HashDataDispatcher::dispatch_data), the row ops and the optional
visibility bitmap. -/
structure HashChunk where
  hashValues : List Nat
  ops : List Op
  visibility : Option (List Bool)
deriving DecidableEq, Repr

/-- Zip the parallel row lists of a chunk, exactly as the zip_eq calls
in HashDataDispatcher::dispatch_data do.  The source has a separate loop
for a chunk without a visibility bitmap; that loop behaves identically
to the all-visible case (the early return for invisible rows is never
taken and the conjunct degenerates), so it is embedded as an all-true
bitmap. -/
def zipRows (c : HashChunk) : List (Nat × Bool × Op) :=
  match c.visibility with
  | none => c.hashValues.zip ((List.replicate c.ops.length true).zip c.ops)
  | some vis => c.hashValues.zip (vis.zip c.ops)

/-- The op-rewriting loop of HashDataDispatcher::dispatch_data: an
invisible row keeps its op; a visible UpdateDelete records its hash in
last_hash_value_when_update_delete and emits nothing yet; a visible
UpdateInsert emits the pair (Delete, Insert) when its hash differs from
the recorded hash and (UpdateDelete, UpdateInsert) otherwise; any other
visible op is kept.  The source initializes the recorded hash to 0. -/
def rewriteOps (last : Nat) : List (Nat × Bool × Op) → List Op
  | [] => []
  | (h, vis, op) :: rest =>
    if vis = false then op :: rewriteOps last rest
    else if op = Op.UpdateDelete then rewriteOps h rest
    else if op = Op.UpdateInsert then
      (if h ≠ last then [Op.Delete, Op.Insert]
       else [Op.UpdateDelete, Op.UpdateInsert]) ++ rewriteOps last rest
    else op :: rewriteOps last rest

/-- The new op vector computed by HashDataDispatcher::dispatch_data
(variable new_ops in the source); it is shared by all output chunks. -/
def newOps (c : HashChunk) : List Op :=
  rewriteOps 0 (zipRows c)

/-- The visibility bitmap of the output chunk built for the output with
actor id a: a row is visible there iff it is visible in the input and
the hash mapping sends its virtual node to a
(vis_map.push(visible && hash_mapping of hash == actor_id)). -/
def visMapFor (mapping : List Nat) (c : HashChunk) (a : Nat) : List Bool :=
  (zipRows c).map (fun r => r.2.1 && decide (mapping.getD r.1 0 = a))

/-- An output chunk as assembled by the hash dispatcher: the shared
rewritten ops and the per-output visibility bitmap (the column arrays
are shared unchanged and take no part in the routing computation). -/
structure OutChunk where
  ops : List Op
  vis : List Bool
deriving DecidableEq, Repr

/-- StreamChunk::cardinality for a chunk carrying a visibility bitmap:
the number of visible rows. -/
def OutChunk.cardinality (ch : OutChunk) : Nat :=
  ch.vis.count true

/-- The sending loop of HashDataDispatcher::dispatch_data: one candidate
chunk per output, sent only when its cardinality is positive. -/
def hashDispatchData (mapping : List Nat) (outputs : List Nat) (c : HashChunk) :
    List (Nat × OutChunk) :=
  (outputs.map (fun a => (a, OutChunk.mk (newOps c) (visMapFor mapping c a)))).filter
    (fun p => decide (0 < p.2.cardinality))

/-- Well-formed op sequences: the rows parse into singleton non-update
rows and adjacent (UpdateDelete, UpdateInsert) pairs whose two rows have
the same visibility.  This is the update-pair invariant of the chunk
data model. -/
inductive WfPairs : List (Nat × Bool × Op) → Prop
  | nil : WfPairs []
  | single (h : Nat) (v : Bool) (op : Op) (rest : List (Nat × Bool × Op))
      (hd : op ≠ Op.UpdateDelete) (hi : op ≠ Op.UpdateInsert)
      (hrest : WfPairs rest) : WfPairs ((h, v, op) :: rest)
  | pair (h1 h2 : Nat) (v : Bool) (rest : List (Nat × Bool × Op))
      (hrest : WfPairs rest) :
      WfPairs ((h1, v, Op.UpdateDelete) :: (h2, v, Op.UpdateInsert) :: rest)

/-- Specification-side description of the op rewriting, following the
spec text: a visible pair on the same virtual node is emitted unchanged,
a visible pair on different virtual nodes is rewritten to
(Delete, Insert), an invisible pair passes through with its tags
preserved, and any other row keeps its op. -/
def specRewrite : List (Nat × Bool × Op) → List Op
  | [] => []
  | (h1, v, op) :: rest =>
    if op = Op.UpdateDelete then
      match rest with
      | [] => [op]
      | (h2, _, _) :: rest2 =>
        (if v then
           (if h2 = h1 then [Op.UpdateDelete, Op.UpdateInsert]
            else [Op.Delete, Op.Insert])
         else [Op.UpdateDelete, Op.UpdateInsert]) ++ specRewrite rest2
    else op :: specRewrite rest

/-- A downstream output owned by a dispatcher, identified by the
downstream actor id; chan abstracts the channel end it wraps. -/
structure Output where
  actorId : Nat
  chan : Nat
deriving DecidableEq, Repr

/-- RoundRobinDataDispatcher: a rotating cursor over the output list. -/
structure RoundRobinDataDispatcher where
  outputs : List Output
  cur : Nat
deriving DecidableEq, Repr

/-- RoundRobinDataDispatcher::set_outputs replaces the output list and
clamps the cursor with cur.min(len - 1); on an empty list the source
underflows (the spec forbids empty output sets for this dispatcher), so
the Nat truncated subtraction here is only meaningful for a non-empty
list. -/
def RoundRobinDataDispatcher.setOutputs (d : RoundRobinDataDispatcher)
    (new : List Output) : RoundRobinDataDispatcher :=
  { outputs := new, cur := min d.cur (new.length - 1) }

/-- RoundRobinDataDispatcher::add_outputs extends the output list. -/
def RoundRobinDataDispatcher.addOutputs (d : RoundRobinDataDispatcher)
    (new : List Output) : RoundRobinDataDispatcher :=
  { d with outputs := d.outputs ++ new }

/-- RoundRobinDataDispatcher::remove_outputs drains the outputs whose
actor id is in the given set. -/
def RoundRobinDataDispatcher.removeOutputs (d : RoundRobinDataDispatcher)
    (ids : List Nat) : RoundRobinDataDispatcher :=
  { d with outputs := d.outputs.filter (fun o => decide (o.actorId ∉ ids)) }

/-- RoundRobinDataDispatcher::dispatch_data sends the chunk to
outputs[cur] (none models the out-of-bounds index panic) and advances
the cursor modulo the output count. -/
def RoundRobinDataDispatcher.dispatchData (d : RoundRobinDataDispatcher) :
    Option (Output × RoundRobinDataDispatcher) :=
  match d.outputs[d.cur]? with
  | none => none
  | some o => some (o, { d with cur := (d.cur + 1) % d.outputs.length })

/-- HashDataDispatcher routing state (the routing computation itself is
hashDispatchData above). -/
structure HashDataDispatcher where
  fragmentIds : List Nat
  outputs : List Output
  keys : List Nat
  hashMapping : List Nat
deriving DecidableEq, Repr

/-- HashDataDispatcher::set_outputs replaces the output list. -/
def HashDataDispatcher.setOutputs (d : HashDataDispatcher)
    (new : List Output) : HashDataDispatcher :=
  { d with outputs := new }

/-- HashDataDispatcher::add_outputs extends the output list. -/
def HashDataDispatcher.addOutputs (d : HashDataDispatcher)
    (new : List Output) : HashDataDispatcher :=
  { d with outputs := d.outputs ++ new }

/-- Insertion into the actor-id-keyed output map of the broadcast
dispatcher, with the std HashMap semantics: an existing entry with the
same key is overwritten, a new key is appended. -/
def hashMapInsert (m : List (Nat × Output)) (k : Nat) (v : Output) :
    List (Nat × Output) :=
  if m.any (fun p => p.1 == k) then
    m.map (fun p => if p.1 == k then (k, v) else p)
  else m ++ [(k, v)]

/-- HashMap::extend: insert every pair in order. -/
def hashMapExtend (m : List (Nat × Output)) (new : List (Nat × Output)) :
    List (Nat × Output) :=
  new.foldl (fun acc p => hashMapInsert acc p.1 p.2) m

/-- BroadcastDispatcher::into_pairs keys each output by its actor id. -/
def intoPairs (outputs : List Output) : List (Nat × Output) :=
  outputs.map (fun o => (o.actorId, o))

/-- BroadcastDispatcher: outputs keyed by actor id. -/
structure BroadcastDispatcher where
  outputs : List (Nat × Output)
deriving DecidableEq, Repr

/-- BroadcastDispatcher::set_outputs rebuilds the map from the list. -/
def BroadcastDispatcher.setOutputs (d : BroadcastDispatcher)
    (new : List Output) : BroadcastDispatcher :=
  { outputs := hashMapExtend [] (intoPairs new) }

/-- BroadcastDispatcher::add_outputs extends the map with the new
pairs. -/
def BroadcastDispatcher.addOutputs (d : BroadcastDispatcher)
    (new : List Output) : BroadcastDispatcher :=
  { outputs := hashMapExtend d.outputs (intoPairs new) }

/-- SimpleDispatcher: exactly one output. -/
structure SimpleDispatcher where
  output : Output
deriving DecidableEq, Repr

/-- SimpleDispatcher::set_outputs takes the first of the given outputs
(unwrap panics on an empty list, modelled as none). -/
def SimpleDispatcher.setOutputs (d : SimpleDispatcher) (new : List Output) :
    Option SimpleDispatcher :=
  match new with
  | [] => none
  | o :: _ => some { output := o }

/-- SimpleDispatcher::add_outputs: the source assigns
self.output = outputs.into_iter().next().unwrap(), i.e. it overwrites
the single output with the first given output instead of appending. -/
def SimpleDispatcher.addOutputs (d : SimpleDispatcher) (new : List Output) :
    Option SimpleDispatcher :=
  match new with
  | [] => none
  | o :: _ => some { output := o }

/-- ActorInfo: an actor id plus its host address (abstracted). -/
structure ActorInfo where
  actorId : Nat
  host : Nat
deriving DecidableEq, Repr

/-- Epoch: the (curr, prev) pair carried by a barrier. -/
structure Epoch where
  curr : Nat
  prev : Nat
deriving DecidableEq, Repr

/-- Barrier mutations.  The Rust HashSet and HashMap containers are
embedded as lists of their entries. -/
inductive Mutation where
  | Stop (actors : List Nat)
  | UpdateOutputs (updates : List (Nat × List ActorInfo))
  | AddOutput (adds : List (Nat × List ActorInfo))
deriving DecidableEq, Repr

/-- Barrier: epoch, optional mutation and a trace span (0 models the
empty tracing span; the span takes no part in equality). -/
structure Barrier where
  epoch : Epoch
  mutation : Option Mutation
  span : Nat
deriving DecidableEq, Repr

/-- impl PartialEq for Barrier: equality compares exactly the pair
(epoch, mutation) and ignores the trace span. -/
def Barrier.beqRust (a b : Barrier) : Prop :=
  a.epoch = b.epoch ∧ a.mutation = b.mutation

/-- Wire form of the actor list attached to an update or add mutation
entry. -/
structure MutationActors where
  info : List ActorInfo
deriving DecidableEq, Repr

/-- Wire form of a barrier mutation: one of four tagged variants. -/
inductive ProstMutation where
  | Nothing
  | Stop (actors : List Nat)
  | Update (actors : List (Nat × MutationActors))
  | Add (actors : List (Nat × MutationActors))
deriving DecidableEq, Repr

/-- Wire form of an epoch. -/
structure ProstEpoch where
  curr : Nat
  prev : Nat
deriving DecidableEq, Repr

/-- Wire form of a barrier. -/
structure ProstBarrier where
  epoch : Option ProstEpoch
  mutation : Option ProstMutation
  span : List Nat
deriving DecidableEq, Repr

/-- Barrier::to_protobuf: an absent mutation encodes as the Nothing
variant, the containers are copied entrywise, and the span encodes as an
empty byte vector. -/
def Barrier.toProtobuf (b : Barrier) : ProstBarrier :=
  { epoch := some ⟨b.epoch.curr, b.epoch.prev⟩,
    mutation := some (match b.mutation with
      | none => ProstMutation.Nothing
      | some (Mutation.Stop actors) => ProstMutation.Stop actors
      | some (Mutation.UpdateOutputs updates) =>
          ProstMutation.Update (updates.map (fun p => (p.1, ⟨p.2⟩)))
      | some (Mutation.AddOutput adds) =>
          ProstMutation.Add (adds.map (fun p => (p.1, ⟨p.2⟩)))),
    span := [] }

/-- Barrier::from_protobuf: fails when the mutation field is absent
(get_mutation), when the epoch field is absent (get_epoch().unwrap())
or when the epoch pair violates curr > prev (the assertion in
Epoch::new); otherwise rebuilds the barrier with a fresh span. -/
def Barrier.fromProtobuf (p : ProstBarrier) : Except String Barrier :=
  match p.mutation with
  | none => Except.error "mutation field missing"
  | some m =>
    match p.epoch with
    | none => Except.error "epoch field missing"
    | some e =>
      if e.prev < e.curr then
        Except.ok
          { epoch := ⟨e.curr, e.prev⟩,
            mutation :=
              match m with
              | ProstMutation.Nothing => none
              | ProstMutation.Stop actors => some (Mutation.Stop actors)
              | ProstMutation.Update actors =>
                  some (Mutation.UpdateOutputs
                    (actors.map (fun q => (q.1, q.2.info))))
              | ProstMutation.Add actors =>
                  some (Mutation.AddOutput
                    (actors.map (fun q => (q.1, q.2.info)))),
            span := 0 }
      else Except.error "Epoch assertion failed: curr must exceed prev"

/-- A generic stream chunk for the executor models: row ops, columns in
columnar layout (each column is the list of its per-row datums) and an
optional visibility bitmap. -/
structure StreamChunkM where
  ops : List Op
  cols : List (List (Option Int))
  vis : Option (List Bool)
deriving DecidableEq, Repr

/-- A stream message: a data chunk or a barrier. -/
inductive Message where
  | chunk (c : StreamChunkM)
  | barrier (b : Barrier)
deriving DecidableEq, Repr

/-- Executor lifecycle state: waiting for the first barrier, or active
at an epoch. -/
inductive ExecutorState where
  | Init
  | Active (epoch : Nat)
deriving DecidableEq, Repr

/-- StatefulExecutor::try_init_executor: in Init state a first barrier
moves the executor to Active at the barrier's curr epoch and is
returned for forwarding; any other first message is the fatal protocol
violation panic, modelled as an error; in Active state nothing
happens. -/
def tryInitExecutor (s : ExecutorState) (m : Message) :
    Except String (ExecutorState × Option Barrier) :=
  match s with
  | ExecutorState.Init =>
    match m with
    | Message.barrier b =>
        Except.ok (ExecutorState.Active b.epoch.curr, some b)
    | Message.chunk _ =>
        Except.error "The first message the executor receives is not a barrier"
  | ExecutorState.Active e => Except.ok (ExecutorState.Active e, none)

/-- Modelled from the spec: the aggregation state internals
(AggState and the managed per-call states, which are outside the given
sources).  dirty is the dirty flag, prevOutput the previously emitted
result row (present as well after a restore from storage), currOutput
the currently computed result row. -/
structure AggState where
  dirty : Bool
  prevOutput : Option (List (Option Int))
  currOutput : List (Option Int)
deriving DecidableEq, Repr

/-- An output chunk of the aggregation executor: at most two ops with
their result rows. -/
structure AggChunk where
  ops : List Op
  rows : List (List (Option Int))
deriving DecidableEq, Repr

/-- A message on the aggregation executor's output. -/
inductive AggMessage where
  | chunk (c : AggChunk)
  | barrier (b : Barrier)
deriving DecidableEq, Repr

/-- Modelled from the spec: generate_agg_state loads prior aggregator
internals from storage (storedPrev) or initializes to empty (initRow),
with a clean dirty flag. -/
def generateAggState (storedPrev : Option (List (Option Int)))
    (initRow : List (Option Int)) : AggState :=
  { dirty := false, prevOutput := storedPrev,
    currOutput := storedPrev.getD initRow }

/-- SimpleAggExecutor::apply_chunk: create the state on the first chunk
(generate_agg_state), mark it dirty (may_mark_as_dirty) and fold the
chunk into the running aggregates; the arithmetic of the individual
aggregators is outside the given sources and is abstracted by the
aggApply parameter. -/
def applyChunk (aggApply : List (Option Int) → StreamChunkM → List (Option Int))
    (storedPrev : Option (List (Option Int))) (initRow : List (Option Int))
    (states : Option AggState) (c : StreamChunkM) : AggState :=
  let st := match states with
    | none => generateAggState storedPrev initRow
    | some st => st
  { st with dirty := true, currOutput := aggApply st.currOutput c }

/-- Modelled from the spec: AggState::build_changes.  With no previously
emitted row the change is a single Insert of the new row; otherwise it
is the adjacent pair (UpdateDelete of the old row, UpdateInsert of the
new row).  The flush clears the dirty flag and records the new row as
emitted. -/
def buildChanges (st : AggState) : AggChunk × AggState :=
  match st.prevOutput with
  | none =>
      (⟨[Op.Insert], [st.currOutput]⟩,
       { st with dirty := false, prevOutput := some st.currOutput })
  | some old =>
      (⟨[Op.UpdateDelete, Op.UpdateInsert], [old, st.currOutput]⟩,
       { st with dirty := false, prevOutput := some st.currOutput })

/-- SimpleAggExecutor::flush_data: nothing to flush when the state is
absent or clean; otherwise flush the managed states into a write batch,
ingest it, and build the output chunk (the managed-state internals are
the spec-modelled buildChanges). -/
def flushData (states : Option AggState) : Option (AggChunk × AggState) :=
  match states with
  | none => none
  | some st => if st.dirty then some (buildChanges st) else none

/-- Executor-loop state of SimpleAggExecutor::execute_inner: the
optional aggregation state and the running epoch variable. -/
structure AggExec where
  states : Option AggState
  epoch : Nat
deriving DecidableEq, Repr

/-- Whether the executor's state is dirty (an absent state counts as
clean). -/
def AggExec.isDirty (s : AggExec) : Bool :=
  match s.states with
  | none => false
  | some st => st.dirty

/-- One step of the message loop of SimpleAggExecutor::execute_inner.
A chunk is applied to the state and yields nothing.  On a barrier,
flush_data runs at the current epoch; when it produces a chunk the
source asserts epoch = barrier.epoch.prev (modelled as an error) and
yields the chunk, then the barrier is forwarded and the epoch advances
to the barrier's curr.  The returned list of naturals is the trace of
epochs passed to write_batch.ingest. -/
def aggStep (aggApply : List (Option Int) → StreamChunkM → List (Option Int))
    (storedPrev : Option (List (Option Int))) (initRow : List (Option Int))
    (s : AggExec) (m : Message) :
    Except String (AggExec × List AggMessage × List Nat) :=
  match m with
  | Message.chunk c =>
      Except.ok
        ({ s with states := some (applyChunk aggApply storedPrev initRow s.states c) },
         [], [])
  | Message.barrier b =>
    match flushData s.states with
    | none => Except.ok ({ s with epoch := b.epoch.curr }, [AggMessage.barrier b], [])
    | some (chunk, st2) =>
      if s.epoch = b.epoch.prev then
        Except.ok
          ({ states := some st2, epoch := b.epoch.curr },
           [AggMessage.chunk chunk, AggMessage.barrier b], [s.epoch])
      else Except.error "assertion failed: epoch equals barrier prev epoch"

/-- The message loop of SimpleAggExecutor::execute_inner, collecting the
emitted messages and the ingest epoch trace. -/
def aggRun (aggApply : List (Option Int) → StreamChunkM → List (Option Int))
    (storedPrev : Option (List (Option Int))) (initRow : List (Option Int))
    (s : AggExec) : List Message → Except String (AggExec × List AggMessage × List Nat)
  | [] => Except.ok (s, [], [])
  | m :: rest =>
    match aggStep aggApply storedPrev initRow s m with
    | Except.error e => Except.error e
    | Except.ok (s2, outs, ings) =>
      match aggRun aggApply storedPrev initRow s2 rest with
      | Except.error e => Except.error e
      | Except.ok (s3, outs2, ings2) => Except.ok (s3, outs ++ outs2, ings ++ ings2)

/-- SimpleAggExecutor::execute_inner: the first message must be a
barrier (into_barrier().expect, modelled as an error); its curr epoch
initializes the epoch variable, the barrier is yielded first, and the
loop processes the remaining input. -/
def aggExecuteInner (aggApply : List (Option Int) → StreamChunkM → List (Option Int))
    (storedPrev : Option (List (Option Int))) (initRow : List (Option Int))
    (msgs : List Message) : Except String (List AggMessage × List Nat) :=
  match msgs with
  | [] => Except.error "input stream ended before the first barrier"
  | Message.chunk _ :: _ =>
      Except.error "the first message received by agg executor must be a barrier"
  | Message.barrier b :: rest =>
    match aggRun aggApply storedPrev initRow { states := none, epoch := b.epoch.curr } rest with
    | Except.error e => Except.error e
    | Except.ok (_, outs, ings) => Except.ok (AggMessage.barrier b :: outs, ings)

/-- Specification-side trace: the prev epochs of the barriers received
while the aggregation state is dirty (a chunk makes the state dirty, a
barrier leaves it clean). -/
def dirtyPrevs (dirty : Bool) : List Message → List Nat
  | [] => []
  | Message.chunk _ :: rest => dirtyPrevs true rest
  | Message.barrier b :: rest =>
      (if dirty then [b.epoch.prev] else []) ++ dirtyPrevs false rest

/-- The barrier-chaining protocol invariant starting from epoch e: every
barrier's prev equals the running epoch and advances it to its curr. -/
def chainedFrom (e : Nat) : List Message → Prop
  | [] => True
  | Message.chunk _ :: rest => chainedFrom e rest
  | Message.barrier b :: rest => b.epoch.prev = e ∧ chainedFrom b.epoch.curr rest

/-- Modelled from the spec: ManagedMViewState (outside the given
sources), the memtable of pending puts and deletes of the
materialization executor.  An entry (key, some row) is a pending put,
(key, none) a pending delete. -/
structure MviewState where
  mem : List (List (Option Int) × Option (List (Option Int)))
deriving DecidableEq, Repr

/-- Modelled from the spec: ManagedMViewState::put buffers a put. -/
def MviewState.put (s : MviewState) (k v : List (Option Int)) : MviewState :=
  ⟨s.mem ++ [(k, some v)]⟩

/-- Modelled from the spec: ManagedMViewState::delete buffers a
delete. -/
def MviewState.delete (s : MviewState) (k : List (Option Int)) : MviewState :=
  ⟨s.mem ++ [(k, none)]⟩

/-- Modelled from the spec: ManagedMViewState::flush commits the pending
puts and deletes atomically at the given epoch (returned as the ingest
trace) and clears the memtable; with nothing pending there is nothing to
flush and no ingest happens. -/
def MviewState.flush (s : MviewState) (epoch : Nat) : MviewState × List Nat :=
  if s.mem = [] then (s, []) else (⟨[]⟩, [epoch])

/-- The visibility check of the materialization loop
(chunk.visibility().map(is_set).unwrap_or(true)). -/
def rowVisible (c : StreamChunkM) (idx : Nat) : Bool :=
  match c.vis with
  | none => true
  | some v => v.getD idx false

/-- datum_at on the columnar layout. -/
def datumAt (cols : List (List (Option Int))) (colIdx idx : Nat) : Option Int :=
  (cols.getD colIdx []).getD idx none

/-- The arrange-key row assembled from the configured key columns. -/
def arrangeRowAt (arrangeColumns : List Nat) (c : StreamChunkM) (idx : Nat) :
    List (Option Int) :=
  arrangeColumns.map (fun ci => datumAt c.cols ci idx)

/-- The full value row assembled from all columns. -/
def fullRowAt (c : StreamChunkM) (idx : Nat) : List (Option Int) :=
  c.cols.map (fun col => col.getD idx none)

/-- The body of the per-chunk loop of
MaterializeExecutor::execute_inner for one indexed op: skip an invisible
row, apply put for Insert and UpdateInsert and delete for Delete and
UpdateDelete. -/
def mviewRowStep (arrangeColumns : List Nat) (c : StreamChunkM)
    (acc : MviewState) (p : Nat × Op) : MviewState :=
  if rowVisible c p.1 = false then acc
  else
    match p.2 with
    | Op.Insert => acc.put (arrangeRowAt arrangeColumns c p.1) (fullRowAt c p.1)
    | Op.UpdateInsert => acc.put (arrangeRowAt arrangeColumns c p.1) (fullRowAt c p.1)
    | Op.Delete => acc.delete (arrangeRowAt arrangeColumns c p.1)
    | Op.UpdateDelete => acc.delete (arrangeRowAt arrangeColumns c p.1)

/-- The per-chunk loop of MaterializeExecutor::execute_inner: iterate
the ops with their index and apply the row step to each. -/
def mviewProcessChunk (arrangeColumns : List Nat) (st : MviewState)
    (c : StreamChunkM) : MviewState :=
  c.ops.enum.foldl (mviewRowStep arrangeColumns c) st

/-- Specification-side description of the memtable entries a single row
contributes: nothing when invisible, a put for Insert and UpdateInsert,
a delete for Delete and UpdateDelete. -/
def pendingEntry (arrangeColumns : List Nat) (c : StreamChunkM) (p : Nat × Op) :
    List (List (Option Int) × Option (List (Option Int))) :=
  if rowVisible c p.1 = false then []
  else
    match p.2 with
    | Op.Insert => [(arrangeRowAt arrangeColumns c p.1, some (fullRowAt c p.1))]
    | Op.UpdateInsert => [(arrangeRowAt arrangeColumns c p.1, some (fullRowAt c p.1))]
    | Op.Delete => [(arrangeRowAt arrangeColumns c p.1, none)]
    | Op.UpdateDelete => [(arrangeRowAt arrangeColumns c p.1, none)]

/-- Specification-side description of all memtable entries contributed
by a list of indexed ops, in row order. -/
def specPending (arrangeColumns : List Nat) (c : StreamChunkM) :
    List (Nat × Op) → List (List (Option Int) × Option (List (Option Int)))
  | [] => []
  | p :: rest => pendingEntry arrangeColumns c p ++ specPending arrangeColumns c rest

/-- One step of MaterializeExecutor::execute_inner: a chunk is applied
to the local state and forwarded unchanged; a barrier flushes the local
state at the barrier's prev epoch and is then forwarded.  The list of
naturals is the ingest epoch trace. -/
def mviewStep (arrangeColumns : List Nat) (st : MviewState) (m : Message) :
    MviewState × Message × List Nat :=
  match m with
  | Message.chunk c => (mviewProcessChunk arrangeColumns st c, Message.chunk c, [])
  | Message.barrier b =>
    ((st.flush b.epoch.prev).1, Message.barrier b, (st.flush b.epoch.prev).2)

/-- The message loop of MaterializeExecutor::execute_inner. -/
def mviewRun (arrangeColumns : List Nat) (st : MviewState) :
    List Message → MviewState × List Message × List Nat
  | [] => (st, [], [])
  | m :: rest =>
    let step := mviewStep arrangeColumns st m
    let tail := mviewRun arrangeColumns step.1 rest
    (tail.1, step.2.1 :: tail.2.1, step.2.2 ++ tail.2.2)

/-- Specification-side trace for the materialization executor: the prev
epochs of the barriers received while pending mutations exist; a chunk
dirties the state iff it contributes at least one pending entry. -/
def mviewDirtyPrevs (dirty : Bool) (arrangeColumns : List Nat) :
    List Message → List Nat
  | [] => []
  | Message.chunk c :: rest =>
      mviewDirtyPrevs (dirty || decide (specPending arrangeColumns c c.ops.enum ≠ []))
        arrangeColumns rest
  | Message.barrier b :: rest =>
      (if dirty then [b.epoch.prev] else []) ++ mviewDirtyPrevs false arrangeColumns rest

/-- The fixed-width physical column types of the external interface
(integers, dates, times, decimal); their per-row datums are abstracted
to integers. -/
inductive FixedType where
  | Int16
  | Int32
  | Int64
  | Date
  | Time
  | DateTime
  | Decimal
deriving DecidableEq, Repr

/-- Modelled from the spec: the array payload of a column (the array
codec is outside the given sources).  Fixed-width arrays hold integer
datums, boolean arrays bits, utf8 arrays byte strings; nulls are
explicit. -/
inductive ArrayImpl where
  | fixed (t : FixedType) (vals : List (Option Int))
  | boolean (vals : List (Option Bool))
  | utf8 (vals : List (Option (List Nat)))
deriving DecidableEq, Repr

/-- The cardinality of an array. -/
def ArrayImpl.length : ArrayImpl → Nat
  | ArrayImpl.fixed _ vs => vs.length
  | ArrayImpl.boolean vs => vs.length
  | ArrayImpl.utf8 vs => vs.length

/-- The logical type tag written on the wire. -/
inductive ArrayType where
  | fixed (t : FixedType)
  | boolean
  | utf8
deriving DecidableEq, Repr

/-- Modelled from the spec: the wire form of an array — logical type,
nullability bitmap and a physical buffer whose layout is determined by
the type (one slot per row for fixed-width types, length-prefixed for
variable-width). -/
structure ProstArray where
  ty : ArrayType
  nullBitmap : List Bool
  buffer : List Int
deriving DecidableEq, Repr

/-- Fixed-width encoding: one buffer slot per row, 0 for a null. -/
def encodeFixed (vals : List (Option Int)) : List Int :=
  vals.map (fun v => v.getD 0)

/-- Boolean encoding: one buffer slot per row, 1 for true. -/
def encodeBool (vals : List (Option Bool)) : List Int :=
  vals.map (fun v => if v.getD false then 1 else 0)

/-- Variable-width encoding: every row is length-prefixed; a null row
encodes as length 0 and is told apart from an empty string by the
nullability bitmap. -/
def encodeVar : List (Option (List Nat)) → List Int
  | [] => []
  | v :: rest =>
    (match v with
     | none => [(0 : Int)]
     | some bs => Int.ofNat bs.length :: bs.map Int.ofNat) ++ encodeVar rest

/-- Modelled from the spec: Array::to_protobuf. -/
def ArrayImpl.toProtobuf : ArrayImpl → ProstArray
  | ArrayImpl.fixed t vs => ⟨ArrayType.fixed t, vs.map Option.isSome, encodeFixed vs⟩
  | ArrayImpl.boolean vs => ⟨ArrayType.boolean, vs.map Option.isSome, encodeBool vs⟩
  | ArrayImpl.utf8 vs => ⟨ArrayType.utf8, vs.map Option.isSome, encodeVar vs⟩

/-- Fixed-width decoding: consume one buffer slot per bitmap bit. -/
def decodeFixed (bitmap : List Bool) (buf : List Int) :
    Except String (List (Option Int)) :=
  match bitmap, buf with
  | [], [] => Except.ok []
  | b :: bs, x :: xs =>
      (decodeFixed bs xs).map (fun tail => (if b then some x else none) :: tail)
  | _, _ => Except.error "buffer length mismatch"

/-- Boolean decoding: consume one buffer slot per bitmap bit. -/
def decodeBool (bitmap : List Bool) (buf : List Int) :
    Except String (List (Option Bool)) :=
  match bitmap, buf with
  | [], [] => Except.ok []
  | b :: bs, x :: xs =>
      (decodeBool bs xs).map
        (fun tail => (if b then some (decide (x = 1)) else none) :: tail)
  | _, _ => Except.error "buffer length mismatch"

/-- Variable-width decoding: read a length prefix per bitmap bit and
take that many bytes. -/
def decodeVar (bitmap : List Bool) (buf : List Int) :
    Except String (List (Option (List Nat))) :=
  match bitmap with
  | [] => if buf.isEmpty then Except.ok [] else Except.error "trailing bytes"
  | b :: bs =>
    match buf with
    | [] => Except.error "buffer exhausted"
    | len :: rest =>
      if len.toNat ≤ rest.length then
        (decodeVar bs (rest.drop len.toNat)).map
          (fun tail =>
            (if b then some ((rest.take len.toNat).map Int.toNat) else none) :: tail)
      else Except.error "buffer exhausted"

/-- Modelled from the spec: ArrayImpl::from_protobuf at a given
cardinality. -/
def ArrayImpl.fromProtobuf (p : ProstArray) (cardinality : Nat) :
    Except String ArrayImpl :=
  if p.nullBitmap.length ≠ cardinality then Except.error "cardinality mismatch"
  else
    match p.ty with
    | ArrayType.fixed t => (decodeFixed p.nullBitmap p.buffer).map (ArrayImpl.fixed t)
    | ArrayType.boolean => (decodeBool p.nullBitmap p.buffer).map ArrayImpl.boolean
    | ArrayType.utf8 => (decodeVar p.nullBitmap p.buffer).map ArrayImpl.utf8

/-- Column: the owned array (risingwave_common::array::column). -/
structure Column where
  array : ArrayImpl
deriving DecidableEq, Repr

/-- Wire form of a column: the optional array field. -/
structure ProstColumn where
  array : Option ProstArray
deriving DecidableEq, Repr

/-- Column::to_protobuf wraps the encoded array. -/
def Column.toProtobuf (c : Column) : ProstColumn :=
  ⟨some c.array.toProtobuf⟩

/-- Column::from_protobuf: get_array fails on an absent field, then the
array is decoded at the given cardinality. -/
def Column.fromProtobuf (col : ProstColumn) (cardinality : Nat) :
    Except String Column :=
  match col.array with
  | none => Except.error "array field missing"
  | some a => (ArrayImpl.fromProtobuf a cardinality).map Column.mk

theorem specRewrite_cons_other (h : Nat) (v : Bool) (op : Op)
    (rest : List (Nat × Bool × Op)) (hd : op ≠ Op.UpdateDelete) :
    specRewrite ((h, v, op) :: rest) = op :: specRewrite rest := by
  rw [specRewrite.eq_def]
  simp [hd]

theorem specRewrite_cons_pair (h1 h2 : Nat) (v v2 : Bool) (op2 : Op)
    (rest : List (Nat × Bool × Op)) :
    specRewrite ((h1, v, Op.UpdateDelete) :: (h2, v2, op2) :: rest) =
      (if v then
         (if h2 = h1 then [Op.UpdateDelete, Op.UpdateInsert]
          else [Op.Delete, Op.Insert])
       else [Op.UpdateDelete, Op.UpdateInsert]) ++ specRewrite rest := by
  rw [specRewrite.eq_def]
  simp

theorem rewriteOps_eq_specRewrite {rows : List (Nat × Bool × Op)}
    (hwf : WfPairs rows) : ∀ last : Nat, rewriteOps last rows = specRewrite rows := by
  induction hwf with
  | nil => intro last; rfl
  | single h v op rest hd hi hrest ih =>
    intro last
    cases op with
    | Insert =>
      cases v <;> simp [rewriteOps, specRewrite_cons_other, ih]
    | Delete =>
      cases v <;> simp [rewriteOps, specRewrite_cons_other, ih]
    | UpdateDelete => exact absurd rfl hd
    | UpdateInsert => exact absurd rfl hi
  | pair h1 h2 v rest hrest ih =>
    intro last
    cases v with
    | false =>
      simp [rewriteOps, specRewrite_cons_pair, ih]
    | true =>
      by_cases heq : h2 = h1 <;>
        simp [rewriteOps, specRewrite_cons_pair, ih, heq]

/-- C1 (amended).  For a chunk whose rows parse into singleton
non-update rows and adjacent (UpdateDelete, UpdateInsert) pairs of equal
visibility, the op vector computed by the hash dispatcher equals the
specification-side rewriting: a visible pair on the same virtual node is
emitted with its tags unchanged, a visible pair on different virtual
nodes is rewritten to (Delete, Insert), an invisible pair keeps its
tags; moreover an invisible row stays invisible in the output chunk of
every output. -/
theorem hash_dispatch_update_pair_rewrite (c : HashChunk)
    (hwf : WfPairs (zipRows c)) :
    newOps c = specRewrite (zipRows c) ∧
    ∀ (mapping : List Nat) (a i h : Nat) (op : Op),
      (zipRows c)[i]? = some (h, false, op) →
      (visMapFor mapping c a)[i]? = some false := by
  constructor
  · exact rewriteOps_eq_specRewrite hwf 0
  · intro mapping a i h op hget
    simp [visMapFor, List.getElem?_map, hget]

theorem hash_dispatch_update_pair_rewrite_witness :
    WfPairs (zipRows (HashChunk.mk [3, 5] [Op.UpdateDelete, Op.UpdateInsert]
      (some [true, true]))) ∧
    newOps (HashChunk.mk [3, 5] [Op.UpdateDelete, Op.UpdateInsert]
      (some [true, true])) =
      specRewrite (zipRows (HashChunk.mk [3, 5] [Op.UpdateDelete, Op.UpdateInsert]
        (some [true, true]))) :=
  ⟨WfPairs.pair 3 5 true [] WfPairs.nil,
   (hash_dispatch_update_pair_rewrite
     (HashChunk.mk [3, 5] [Op.UpdateDelete, Op.UpdateInsert] (some [true, true]))
     (WfPairs.pair 3 5 true [] WfPairs.nil)).1⟩

/-- C1 (counterexample to the claim as stated).  The chunk with rows
(vnode 5, visible, UpdateInsert), (vnode 7, visible, UpdateDelete),
(vnode 7, visible, UpdateInsert) satisfies the claim's precondition —
every UpdateDelete is immediately followed by an UpdateInsert of the
same visibility — and contains a visible pair at indices (1, 2) whose
rows share virtual node 7; yet the dispatcher does not emit that pair
with its tags unchanged at those indices, because the stray leading
UpdateInsert makes the rewriting loop emit two ops for one row and
misaligns the op vector. -/
theorem hash_dispatch_update_pair_claim_cex :
    (∀ i, i < (zipRows (HashChunk.mk [5, 7, 7]
        [Op.UpdateInsert, Op.UpdateDelete, Op.UpdateInsert]
        (some [true, true, true]))).length →
      ((zipRows (HashChunk.mk [5, 7, 7]
        [Op.UpdateInsert, Op.UpdateDelete, Op.UpdateInsert]
        (some [true, true, true])))[i]?).map (fun r => r.2.2) =
          some Op.UpdateDelete →
      ((zipRows (HashChunk.mk [5, 7, 7]
        [Op.UpdateInsert, Op.UpdateDelete, Op.UpdateInsert]
        (some [true, true, true])))[i + 1]?).map (fun r => r.2.2) =
          some Op.UpdateInsert ∧
      ((zipRows (HashChunk.mk [5, 7, 7]
        [Op.UpdateInsert, Op.UpdateDelete, Op.UpdateInsert]
        (some [true, true, true])))[i + 1]?).map (fun r => r.2.1) =
      ((zipRows (HashChunk.mk [5, 7, 7]
        [Op.UpdateInsert, Op.UpdateDelete, Op.UpdateInsert]
        (some [true, true, true])))[i]?).map (fun r => r.2.1)) ∧
    (zipRows (HashChunk.mk [5, 7, 7]
      [Op.UpdateInsert, Op.UpdateDelete, Op.UpdateInsert]
      (some [true, true, true])))[1]? = some (7, true, Op.UpdateDelete) ∧
    (zipRows (HashChunk.mk [5, 7, 7]
      [Op.UpdateInsert, Op.UpdateDelete, Op.UpdateInsert]
      (some [true, true, true])))[2]? = some (7, true, Op.UpdateInsert) ∧
    (newOps (HashChunk.mk [5, 7, 7]
      [Op.UpdateInsert, Op.UpdateDelete, Op.UpdateInsert]
      (some [true, true, true])))[1]? ≠ some Op.UpdateDelete := by
  decide

/-- C6.  Every chunk sent by the hash dispatcher has cardinality
strictly greater than zero, and an output whose built chunk has
cardinality zero after applying the computed visibility bitmap is not
sent. -/
theorem hash_dispatch_no_empty_chunk (mapping outputs : List Nat) (c : HashChunk) :
    (∀ p ∈ hashDispatchData mapping outputs c, 0 < p.2.cardinality) ∧
    (∀ a ∈ outputs,
      (OutChunk.mk (newOps c) (visMapFor mapping c a)).cardinality = 0 →
      (a, OutChunk.mk (newOps c) (visMapFor mapping c a)) ∉
        hashDispatchData mapping outputs c) := by
  constructor
  · intro p hp
    have h2 := (List.mem_filter.mp hp).2
    simpa using h2
  · intro a _ hcard hmem
    have h2 := (List.mem_filter.mp hmem).2
    rw [hcard] at h2
    simp at h2

theorem hash_dispatch_no_empty_chunk_witness :
    ((1 : Nat), OutChunk.mk (newOps (HashChunk.mk [0] [Op.Insert] none))
        (visMapFor [1] (HashChunk.mk [0] [Op.Insert] none) 1)) ∈
      hashDispatchData [1] [1] (HashChunk.mk [0] [Op.Insert] none) ∧
    0 < (OutChunk.mk (newOps (HashChunk.mk [0] [Op.Insert] none))
        (visMapFor [1] (HashChunk.mk [0] [Op.Insert] none) 1)).cardinality :=
  ⟨by decide,
   (hash_dispatch_no_empty_chunk [1] [1] (HashChunk.mk [0] [Op.Insert] none)).1
     ((1 : Nat), OutChunk.mk (newOps (HashChunk.mk [0] [Op.Insert] none))
       (visMapFor [1] (HashChunk.mk [0] [Op.Insert] none) 1))
     (by decide)⟩

theorem mem_hashMapInsert_of_ne (m : List (Nat × Output)) (k : Nat) (v : Output)
    (p : Nat × Output) (hp : p ∈ m) (hk : p.1 ≠ k) : p ∈ hashMapInsert m k v := by
  unfold hashMapInsert
  split
  · refine List.mem_map.mpr ⟨p, hp, ?_⟩
    simp [hk]
  · exact List.mem_append_left _ hp

theorem mem_hashMapExtend (new : List (Nat × Output)) :
    ∀ (m : List (Nat × Output)) (p : Nat × Output), p ∈ m →
      (∀ q ∈ new, p.1 ≠ q.1) → p ∈ hashMapExtend m new := by
  induction new with
  | nil => intro m p hp _; exact hp
  | cons q rest ih =>
    intro m p hp hk
    have h1 : p ∈ hashMapInsert m q.1 q.2 :=
      mem_hashMapInsert_of_ne m q.1 q.2 p hp (hk q (by simp))
    have h2 : ∀ r ∈ rest, p.1 ≠ r.1 := fun r hr => hk r (by simp [hr])
    exact ih (hashMapInsert m q.1 q.2) p h1 h2

/-- C7 (amended).  add_outputs appends for the RoundRobin and Hash
dispatchers; for the Broadcast dispatcher it inserts the new outputs
into the actor-id-keyed map, keeping every previous output whose actor
id is not among the added ones; for the Simple dispatcher the source
replaces the single output with the first given output instead of
appending. -/
theorem add_outputs_semantics :
    (∀ (d : RoundRobinDataDispatcher) (new : List Output),
      (d.addOutputs new).outputs = d.outputs ++ new) ∧
    (∀ (d : HashDataDispatcher) (new : List Output),
      (d.addOutputs new).outputs = d.outputs ++ new) ∧
    (∀ (d : BroadcastDispatcher) (new : List Output) (p : Nat × Output),
      p ∈ d.outputs → p.1 ∉ new.map Output.actorId →
      p ∈ (d.addOutputs new).outputs) ∧
    (∀ (d : SimpleDispatcher) (o : Output) (rest : List Output),
      d.addOutputs (o :: rest) = some (SimpleDispatcher.mk o)) := by
  refine ⟨fun d new => rfl, fun d new => rfl, ?_, fun d o rest => rfl⟩
  intro d new p hp hk
  refine mem_hashMapExtend (intoPairs new) d.outputs p hp ?_
  intro q hq
  obtain ⟨o, ho, rfl⟩ := List.mem_map.mp hq
  intro hcontra
  exact hk (List.mem_map.mpr ⟨o, ho, hcontra.symm⟩)

theorem add_outputs_semantics_witness :
    ((3 : Nat), Output.mk 3 30) ∈
      (BroadcastDispatcher.addOutputs (BroadcastDispatcher.mk [(3, Output.mk 3 30)])
        [Output.mk 4 40]).outputs :=
  add_outputs_semantics.2.2.1 (BroadcastDispatcher.mk [(3, Output.mk 3 30)])
    [Output.mk 4 40] (3, Output.mk 3 30) (by decide) (by decide)

/-- C7 (counterexample to the claim as stated).  add_outputs on the
Simple dispatcher does not leave the previously present output in
place: adding an output to a Simple dispatcher holding actor 1 yields a
dispatcher holding only the added output for actor 2. -/
theorem simple_add_outputs_overwrite_cex :
    SimpleDispatcher.addOutputs (SimpleDispatcher.mk (Output.mk 1 10))
      [Output.mk 2 20] = some (SimpleDispatcher.mk (Output.mk 2 20)) ∧
    (SimpleDispatcher.mk (Output.mk 2 20)).output ≠ Output.mk 1 10 := by
  decide

/-- C8.  After set_outputs with a non-empty output list the RoundRobin
cursor is strictly less than the number of outputs, so the next
dispatch_data indexes the output list in bounds (the lookup succeeds). -/
theorem round_robin_cursor_in_bounds (d : RoundRobinDataDispatcher)
    (new : List Output) (hne : new ≠ []) :
    (d.setOutputs new).cur < (d.setOutputs new).outputs.length ∧
    ((d.setOutputs new).dispatchData).isSome = true := by
  have hlen : 0 < new.length := List.length_pos.mpr hne
  have hmin : min d.cur (new.length - 1) ≤ new.length - 1 :=
    Nat.min_le_right _ _
  have hlt : min d.cur (new.length - 1) < new.length := by omega
  refine ⟨by simpa [RoundRobinDataDispatcher.setOutputs] using hlt, ?_⟩
  unfold RoundRobinDataDispatcher.dispatchData RoundRobinDataDispatcher.setOutputs
  rcases hg : new[min d.cur (new.length - 1)]? with _ | o
  · rw [List.getElem?_eq_none_iff] at hg
    omega
  · simp [hg]

theorem round_robin_cursor_in_bounds_witness :
    ([Output.mk 1 1] : List Output) ≠ [] ∧
    ((RoundRobinDataDispatcher.mk [] 5).setOutputs [Output.mk 1 1]).cur <
      ((RoundRobinDataDispatcher.mk [] 5).setOutputs [Output.mk 1 1]).outputs.length :=
  ⟨by decide,
   (round_robin_cursor_in_bounds (RoundRobinDataDispatcher.mk [] 5)
     [Output.mk 1 1] (by decide)).1⟩

/-- C10.  For every barrier whose epoch satisfies curr > prev, encoding
to the wire form and decoding back succeeds and returns a barrier equal
to the original under the Rust equality, which compares exactly the pair
(epoch, mutation) — all four mutation variants are covered by the
universal quantification — and ignores the trace span. -/
theorem barrier_protobuf_roundtrip (b : Barrier)
    (h : b.epoch.prev < b.epoch.curr) :
    ∃ b2, Barrier.fromProtobuf (Barrier.toProtobuf b) = Except.ok b2 ∧
      Barrier.beqRust b2 b := by
  refine ⟨⟨b.epoch, b.mutation, 0⟩, ?_, rfl, rfl⟩
  cases hm : b.mutation with
  | none =>
    simp [Barrier.toProtobuf, Barrier.fromProtobuf, h, hm]
  | some mu =>
    cases mu <;>
      simp [Barrier.toProtobuf, Barrier.fromProtobuf, h, hm, List.map_map,
        Function.comp_def]

theorem barrier_protobuf_roundtrip_witness :
    (Barrier.mk (Epoch.mk 2 1)
      (some (Mutation.UpdateOutputs [(7, [ActorInfo.mk 8 9])])) 5).epoch.prev <
    (Barrier.mk (Epoch.mk 2 1)
      (some (Mutation.UpdateOutputs [(7, [ActorInfo.mk 8 9])])) 5).epoch.curr ∧
    ∃ b2,
      Barrier.fromProtobuf (Barrier.toProtobuf (Barrier.mk (Epoch.mk 2 1)
        (some (Mutation.UpdateOutputs [(7, [ActorInfo.mk 8 9])])) 5)) =
        Except.ok b2 ∧
      Barrier.beqRust b2 (Barrier.mk (Epoch.mk 2 1)
        (some (Mutation.UpdateOutputs [(7, [ActorInfo.mk 8 9])])) 5) :=
  ⟨by decide,
   barrier_protobuf_roundtrip
     (Barrier.mk (Epoch.mk 2 1)
       (some (Mutation.UpdateOutputs [(7, [ActorInfo.mk 8 9])])) 5) (by decide)⟩

/-- C5.  A first message that is not a barrier is a fatal protocol
violation and produces no output, both in
StatefulExecutor::try_init_executor and in the aggregation executor's
message loop; a first barrier initializes the executor epoch with its
curr field and is forwarded before any other output. -/
theorem executor_first_message_protocol :
    (∀ c : StreamChunkM,
      tryInitExecutor ExecutorState.Init (Message.chunk c) =
        Except.error "The first message the executor receives is not a barrier") ∧
    (∀ b : Barrier,
      tryInitExecutor ExecutorState.Init (Message.barrier b) =
        Except.ok (ExecutorState.Active b.epoch.curr, some b)) ∧
    (∀ (aggApply : List (Option Int) → StreamChunkM → List (Option Int))
      (storedPrev : Option (List (Option Int))) (initRow : List (Option Int))
      (c : StreamChunkM) (rest : List Message),
      aggExecuteInner aggApply storedPrev initRow (Message.chunk c :: rest) =
        Except.error "the first message received by agg executor must be a barrier") ∧
    (∀ (aggApply : List (Option Int) → StreamChunkM → List (Option Int))
      (storedPrev : Option (List (Option Int))) (initRow : List (Option Int))
      (b : Barrier) (rest : List Message) (outs : List AggMessage) (ings : List Nat),
      aggExecuteInner aggApply storedPrev initRow (Message.barrier b :: rest) =
        Except.ok (outs, ings) →
      outs.head? = some (AggMessage.barrier b)) := by
  refine ⟨fun c => rfl, fun b => rfl, fun _ _ _ _ _ => rfl, ?_⟩
  intro aggApply storedPrev initRow b rest outs ings hok
  simp only [aggExecuteInner] at hok
  rcases hrun : aggRun aggApply storedPrev initRow ⟨none, b.epoch.curr⟩ rest with e | r
  · rw [hrun] at hok
    exact Except.noConfusion hok
  · obtain ⟨s3, outs2, ings2⟩ := r
    rw [hrun] at hok
    have hpair : (Except.ok (AggMessage.barrier b :: outs2, ings2) :
        Except String (List AggMessage × List Nat)) = Except.ok (outs, ings) := hok
    injection hpair with hp
    injection hp with hp1 hp2
    rw [← hp1]
    rfl

theorem executor_first_message_protocol_witness :
    aggExecuteInner (fun r _ => r) none []
        [Message.barrier (Barrier.mk (Epoch.mk 1 0) none 0)] =
      Except.ok ([AggMessage.barrier (Barrier.mk (Epoch.mk 1 0) none 0)], []) ∧
    ([AggMessage.barrier (Barrier.mk (Epoch.mk 1 0) none 0)] :
        List AggMessage).head? =
      some (AggMessage.barrier (Barrier.mk (Epoch.mk 1 0) none 0)) :=
  ⟨rfl,
   executor_first_message_protocol.2.2.2 (fun r _ => r) none []
     (Barrier.mk (Epoch.mk 1 0) none 0) []
     [AggMessage.barrier (Barrier.mk (Epoch.mk 1 0) none 0)] [] rfl⟩

/-- C2.  On a barrier, the simple aggregation executor with clean state
forwards the barrier and emits no chunk; with dirty state (and the
epoch-chaining assertion satisfied) it emits exactly one chunk before
the barrier, which is a single Insert of the new row when no prior
result row had been emitted and the adjacent pair (UpdateDelete of the
old row, UpdateInsert of the new row) otherwise. -/
theorem simple_agg_barrier_flush_output
    (aggApply : List (Option Int) → StreamChunkM → List (Option Int))
    (storedPrev : Option (List (Option Int))) (initRow : List (Option Int))
    (s : AggExec) (b : Barrier) :
    (s.isDirty = false →
      aggStep aggApply storedPrev initRow s (Message.barrier b) =
        Except.ok ({ s with epoch := b.epoch.curr }, [AggMessage.barrier b], [])) ∧
    (∀ st, s.states = some st → st.dirty = true → s.epoch = b.epoch.prev →
      aggStep aggApply storedPrev initRow s (Message.barrier b) =
        Except.ok (AggExec.mk (some (buildChanges st).2) b.epoch.curr,
          [AggMessage.chunk (buildChanges st).1, AggMessage.barrier b],
          [s.epoch]) ∧
      (st.prevOutput = none →
        (buildChanges st).1 = AggChunk.mk [Op.Insert] [st.currOutput]) ∧
      (∀ old, st.prevOutput = some old →
        (buildChanges st).1 =
          AggChunk.mk [Op.UpdateDelete, Op.UpdateInsert] [old, st.currOutput])) := by
  constructor
  · intro hclean
    unfold aggStep flushData
    cases hs : s.states with
    | none => rfl
    | some st =>
      have hdirty : st.dirty = false := by
        unfold AggExec.isDirty at hclean
        rw [hs] at hclean
        exact hclean
      simp [hdirty]
  · intro st hst hdirty hprev
    refine ⟨?_, ?_, ?_⟩
    · unfold aggStep flushData
      rw [hst]
      simp [hdirty, hprev]
    · intro hnone
      simp [buildChanges, hnone]
    · intro old hold
      simp [buildChanges, hold]

theorem simple_agg_barrier_flush_output_witness :
    aggStep (fun r _ => r) none []
        (AggExec.mk (some (AggState.mk true none [some 3])) 1)
        (Message.barrier (Barrier.mk (Epoch.mk 2 1) none 0)) =
      Except.ok (AggExec.mk (some (buildChanges (AggState.mk true none [some 3])).2) 2,
        [AggMessage.chunk (buildChanges (AggState.mk true none [some 3])).1,
         AggMessage.barrier (Barrier.mk (Epoch.mk 2 1) none 0)], [1]) :=
  ((simple_agg_barrier_flush_output (fun r _ => r) none []
      (AggExec.mk (some (AggState.mk true none [some 3])) 1)
      (Barrier.mk (Epoch.mk 2 1) none 0)).2
    (AggState.mk true none [some 3]) rfl rfl rfl).1

theorem flushData_clean (s : AggExec) (h : s.isDirty = false) :
    flushData s.states = none := by
  cases hs : s.states with
  | none => rfl
  | some st =>
    have hdirty : st.dirty = false := by
      unfold AggExec.isDirty at h
      rw [hs] at h
      exact h
    simp [flushData, hdirty]

theorem buildChanges_clean (st : AggState) : (buildChanges st).2.dirty = false := by
  unfold buildChanges
  cases st.prevOutput <;> rfl

theorem aggRun_trace
    (aggApply : List (Option Int) → StreamChunkM → List (Option Int))
    (storedPrev : Option (List (Option Int))) (initRow : List (Option Int)) :
    ∀ (msgs : List Message) (s : AggExec), chainedFrom s.epoch msgs →
      ∃ s2 outs, aggRun aggApply storedPrev initRow s msgs =
        Except.ok (s2, outs, dirtyPrevs s.isDirty msgs) := by
  intro msgs
  induction msgs with
  | nil => intro s _; exact ⟨s, [], rfl⟩
  | cons m rest ih =>
    intro s hch
    cases m with
    | chunk c =>
      have hch2 : chainedFrom s.epoch rest := hch
      obtain ⟨s3, outs, hrun⟩ :=
        ih { s with states := some (applyChunk aggApply storedPrev initRow s.states c) } hch2
      refine ⟨s3, outs, ?_⟩
      simp only [aggRun, aggStep]
      rw [hrun]
      simp [dirtyPrevs, AggExec.isDirty, applyChunk]
    | barrier b =>
      obtain ⟨hprev, hch2⟩ := hch
      cases hd : s.isDirty with
      | false =>
        have hflush : flushData s.states = none := flushData_clean s hd
        have hstep : aggStep aggApply storedPrev initRow s (Message.barrier b) =
            Except.ok ({ s with epoch := b.epoch.curr }, [AggMessage.barrier b], []) := by
          simp [aggStep, hflush]
        obtain ⟨s3, outs, hrun⟩ := ih { s with epoch := b.epoch.curr } hch2
        refine ⟨s3, AggMessage.barrier b :: outs, ?_⟩
        simp only [aggRun]
        rw [hstep]
        simp only [hrun]
        have hnd : ({ s with epoch := b.epoch.curr } : AggExec).isDirty = false := hd
        rw [hnd]
        simp [dirtyPrevs, hd]
      | true =>
        rcases hs : s.states with _ | st
        · exfalso
          unfold AggExec.isDirty at hd
          rw [hs] at hd
          exact Bool.noConfusion hd
        · have hdirty : st.dirty = true := by
            unfold AggExec.isDirty at hd
            rw [hs] at hd
            exact hd
          have hflush : flushData s.states = some (buildChanges st) := by
            simp [flushData, hs, hdirty]
          have hstep : aggStep aggApply storedPrev initRow s (Message.barrier b) =
              Except.ok (AggExec.mk (some (buildChanges st).2) b.epoch.curr,
                [AggMessage.chunk (buildChanges st).1, AggMessage.barrier b],
                [s.epoch]) := by
            simp [aggStep, hflush, hprev]
          obtain ⟨s3, outs, hrun⟩ :=
            ih (AggExec.mk (some (buildChanges st).2) b.epoch.curr) hch2
          refine ⟨s3,
            AggMessage.chunk (buildChanges st).1 :: AggMessage.barrier b :: outs, ?_⟩
          simp only [aggRun]
          rw [hstep]
          simp only [hrun]
          have hnd : (AggExec.mk (some (buildChanges st).2) b.epoch.curr).isDirty = false := by
            unfold AggExec.isDirty
            exact buildChanges_clean st
          rw [hnd]
          simp [dirtyPrevs, hd, hprev]

theorem mviewRowStep_mem (ac : List Nat) (c : StreamChunkM) (st : MviewState)
    (p : Nat × Op) :
    (mviewRowStep ac c st p).mem = st.mem ++ pendingEntry ac c p := by
  unfold mviewRowStep pendingEntry
  cases hv : rowVisible c p.1 <;> cases p.2 <;>
    simp [hv, MviewState.put, MviewState.delete]

theorem mviewProcessChunk_mem_aux (ac : List Nat) (c : StreamChunkM) :
    ∀ (l : List (Nat × Op)) (st : MviewState),
      (l.foldl (mviewRowStep ac c) st).mem = st.mem ++ specPending ac c l := by
  intro l
  induction l with
  | nil => intro st; simp [specPending]
  | cons p rest ih =>
    intro st
    simp only [List.foldl_cons, specPending]
    rw [ih, mviewRowStep_mem, List.append_assoc]

theorem mviewRun_trace (ac : List Nat) :
    ∀ (msgs : List Message) (st : MviewState),
      (mviewRun ac st msgs).2.2 = mviewDirtyPrevs (decide (st.mem ≠ [])) ac msgs := by
  intro msgs
  induction msgs with
  | nil => intro st; rfl
  | cons m rest ih =>
    intro st
    cases m with
    | chunk c =>
      simp only [mviewRun, mviewStep]
      rw [ih]
      have hmem : (mviewProcessChunk ac st c).mem = st.mem ++ specPending ac c c.ops.enum :=
        mviewProcessChunk_mem_aux ac c c.ops.enum st
      have hbool : decide ((mviewProcessChunk ac st c).mem ≠ []) =
          (decide (st.mem ≠ []) || decide (specPending ac c c.ops.enum ≠ [])) := by
        rw [hmem]
        by_cases h1 : st.mem = [] <;> by_cases h2 : specPending ac c c.ops.enum = [] <;>
          simp [h1, h2]
      rw [hbool]
      simp [mviewDirtyPrevs]
    | barrier b =>
      simp only [mviewRun, mviewStep, MviewState.flush]
      by_cases h1 : st.mem = []
      · simp [h1, ih, mviewDirtyPrevs]
      · simp [h1, ih, mviewDirtyPrevs]

/-- C3.  For the simple aggregation executor, on every input whose
barriers chain from the executor's epoch the run succeeds and the
sequence of epochs passed to write_batch.ingest equals the sequence of
prev epochs of the barriers received while the state was dirty (each
ingest happens only when dirty and, by the chaining, at the incoming
barrier's prev epoch); for the materialization executor, the ingest
trace equals the prev epochs of the barriers received while the
memtable held pending mutations. -/
theorem stateful_ingest_epoch_trace :
    (∀ (aggApply : List (Option Int) → StreamChunkM → List (Option Int))
      (storedPrev : Option (List (Option Int))) (initRow : List (Option Int))
      (s : AggExec) (msgs : List Message),
      chainedFrom s.epoch msgs →
      ∃ s2 outs, aggRun aggApply storedPrev initRow s msgs =
        Except.ok (s2, outs, dirtyPrevs s.isDirty msgs)) ∧
    (∀ (ac : List Nat) (st : MviewState) (msgs : List Message),
      (mviewRun ac st msgs).2.2 = mviewDirtyPrevs (decide (st.mem ≠ [])) ac msgs) :=
  ⟨fun aggApply storedPrev initRow s msgs hch =>
    aggRun_trace aggApply storedPrev initRow msgs s hch,
   fun ac st msgs => mviewRun_trace ac msgs st⟩

theorem stateful_ingest_epoch_trace_witness :
    chainedFrom (AggExec.mk none 1).epoch
      [Message.chunk (StreamChunkM.mk [Op.Insert] [[some 1]] none),
       Message.barrier (Barrier.mk (Epoch.mk 2 1) none 0)] ∧
    ∃ s2 outs,
      aggRun (fun r _ => r) none [] (AggExec.mk none 1)
        [Message.chunk (StreamChunkM.mk [Op.Insert] [[some 1]] none),
         Message.barrier (Barrier.mk (Epoch.mk 2 1) none 0)] =
      Except.ok (s2, outs, [1]) :=
  ⟨⟨rfl, trivial⟩,
   stateful_ingest_epoch_trace.1 (fun r _ => r) none [] (AggExec.mk none 1)
     [Message.chunk (StreamChunkM.mk [Op.Insert] [[some 1]] none),
      Message.barrier (Barrier.mk (Epoch.mk 2 1) none 0)] ⟨rfl, trivial⟩⟩

/-- C4.  Processing a chunk appends to the memtable exactly one put per
visible row with op Insert or UpdateInsert (keyed by the arrange-key
row, valued by the full row) and one delete per visible row with op
Delete or UpdateDelete, skipping invisible rows; the chunk is forwarded
downstream unchanged; on a barrier the pending mutations are flushed at
the barrier's prev epoch before the barrier is forwarded. -/
theorem materialize_chunk_and_barrier (ac : List Nat) (st : MviewState)
    (c : StreamChunkM) (b : Barrier) :
    (mviewProcessChunk ac st c).mem = st.mem ++ specPending ac c c.ops.enum ∧
    mviewStep ac st (Message.chunk c) =
      (mviewProcessChunk ac st c, Message.chunk c, []) ∧
    mviewStep ac st (Message.barrier b) =
      ((st.flush b.epoch.prev).1, Message.barrier b, (st.flush b.epoch.prev).2) ∧
    (st.mem ≠ [] → st.flush b.epoch.prev = (MviewState.mk [], [b.epoch.prev])) := by
  refine ⟨mviewProcessChunk_mem_aux ac c c.ops.enum st, rfl, rfl, ?_⟩
  intro hne
  simp [MviewState.flush, hne]

theorem materialize_chunk_and_barrier_witness :
    (MviewState.mk [([some 1], none)]).mem ≠ [] ∧
    (MviewState.mk [([some 1], none)]).flush
        (Barrier.mk (Epoch.mk 2 1) none 0).epoch.prev =
      (MviewState.mk [], [1]) :=
  ⟨by decide,
   (materialize_chunk_and_barrier [] (MviewState.mk [([some 1], none)])
      (StreamChunkM.mk [] [] none) (Barrier.mk (Epoch.mk 2 1) none 0)).2.2.2
     (by decide)⟩

theorem encodeFixed_cons (v : Option Int) (rest : List (Option Int)) :
    encodeFixed (v :: rest) = v.getD 0 :: encodeFixed rest := rfl

theorem decodeFixed_cons (b : Bool) (bm : List Bool) (x : Int) (buf : List Int) :
    decodeFixed (b :: bm) (x :: buf) =
      (decodeFixed bm buf).map (fun tail => (if b then some x else none) :: tail) :=
  rfl

theorem decodeFixed_roundtrip :
    ∀ vals : List (Option Int),
      decodeFixed (vals.map Option.isSome) (encodeFixed vals) = Except.ok vals := by
  intro vals
  induction vals with
  | nil => rfl
  | cons v rest ih =>
    rw [List.map_cons, encodeFixed_cons, decodeFixed_cons, ih]
    cases v <;> rfl

theorem encodeBool_cons (v : Option Bool) (rest : List (Option Bool)) :
    encodeBool (v :: rest) = (if v.getD false then 1 else 0) :: encodeBool rest := rfl

theorem decodeBool_cons (b : Bool) (bm : List Bool) (x : Int) (buf : List Int) :
    decodeBool (b :: bm) (x :: buf) =
      (decodeBool bm buf).map
        (fun tail => (if b then some (decide (x = 1)) else none) :: tail) :=
  rfl

theorem decodeBool_roundtrip :
    ∀ vals : List (Option Bool),
      decodeBool (vals.map Option.isSome) (encodeBool vals) = Except.ok vals := by
  intro vals
  induction vals with
  | nil => rfl
  | cons v rest ih =>
    rw [List.map_cons, encodeBool_cons, decodeBool_cons, ih]
    rcases v with _ | b
    · rfl
    · cases b <;> rfl

theorem encodeVar_cons_none (rest : List (Option (List Nat))) :
    encodeVar (none :: rest) = 0 :: encodeVar rest := rfl

theorem encodeVar_cons_some (bs : List Nat) (rest : List (Option (List Nat))) :
    encodeVar (some bs :: rest) =
      Int.ofNat bs.length :: (bs.map Int.ofNat ++ encodeVar rest) := rfl

theorem decodeVar_cons (b : Bool) (bm : List Bool) (len : Int) (buf : List Int) :
    decodeVar (b :: bm) (len :: buf) =
      if len.toNat ≤ buf.length then
        (decodeVar bm (buf.drop len.toNat)).map
          (fun tail =>
            (if b then some ((buf.take len.toNat).map Int.toNat) else none) :: tail)
      else Except.error "buffer exhausted" :=
  rfl

theorem toNat_cast_map (bs : List Nat) :
    (bs.map Int.ofNat).map Int.toNat = bs := by
  induction bs with
  | nil => rfl
  | cons x xs ih =>
    rw [List.map_cons, List.map_cons, ih]
    rfl

theorem decodeVar_roundtrip :
    ∀ vals : List (Option (List Nat)),
      decodeVar (vals.map Option.isSome) (encodeVar vals) = Except.ok vals := by
  intro vals
  induction vals with
  | nil => rfl
  | cons v rest ih =>
    rcases v with _ | bs
    · rw [List.map_cons, encodeVar_cons_none, decodeVar_cons]
      rw [show ((0 : Int)).toNat = 0 from rfl]
      rw [if_pos (Nat.zero_le _), List.drop_zero, ih]
      rfl
    · rw [List.map_cons, encodeVar_cons_some, decodeVar_cons]
      have hlen : (Int.ofNat bs.length).toNat = bs.length := rfl
      rw [hlen]
      have hle : bs.length ≤ (bs.map Int.ofNat ++ encodeVar rest).length := by
        rw [List.length_append, List.length_map]
        exact Nat.le_add_right _ _
      rw [if_pos hle]
      have htake : (bs.map Int.ofNat ++ encodeVar rest).take bs.length =
          bs.map Int.ofNat := List.take_left' (List.length_map _ _)
      have hdrop : (bs.map Int.ofNat ++ encodeVar rest).drop bs.length =
          encodeVar rest := List.drop_left' (List.length_map _ _)
      rw [htake, hdrop, ih, toNat_cast_map]
      rfl

theorem array_protobuf_roundtrip (a : ArrayImpl) :
    ArrayImpl.fromProtobuf a.toProtobuf a.length = Except.ok a := by
  cases a with
  | fixed t vs =>
    simp [ArrayImpl.toProtobuf, ArrayImpl.fromProtobuf, ArrayImpl.length,
      decodeFixed_roundtrip, Except.map]
  | boolean vs =>
    simp [ArrayImpl.toProtobuf, ArrayImpl.fromProtobuf, ArrayImpl.length,
      decodeBool_roundtrip, Except.map]
  | utf8 vs =>
    simp [ArrayImpl.toProtobuf, ArrayImpl.fromProtobuf, ArrayImpl.length,
      decodeVar_roundtrip, Except.map]

/-- C9.  Encoding a column to its wire form and decoding it back at the
column's cardinality succeeds and yields the identical column — same
length and same values, nulls included — for every column of every
modelled type (fixed-width integer, date, time, datetime, decimal,
boolean, utf8) and every cardinality. -/
theorem column_protobuf_roundtrip (c : Column) :
    Column.fromProtobuf c.toProtobuf c.array.length = Except.ok c := by
  cases c with
  | mk a =>
    simp [Column.toProtobuf, Column.fromProtobuf, array_protobuf_roundtrip,
      Except.map]

end Streaming
